import Mathlib

/-!
Shallow embedding of `src/graph.rs` from the rust-static-error-analyser
repository: a call graph used by a static analysis that tracks how
panic/error conditions propagate across function calls.

`DefId` (process-wide stable handle) and `HirId` (in-unit handle) are opaque
identifiers in the source; both are modelled as `Nat`.  Rust `Vec` becomes
`List`, `Option<String>` becomes `Option String`, and operations that can
panic (direct slice indexing, `unwrap`) return `Except String` carrying the
panic message.
-/

namespace ErrorAnalyser

/-- `NodeKind` from `graph.rs`: a function local to the analysed crate
(carrying both its `DefId` and `HirId`) or an external function
(carrying only its `DefId`). -/
inductive NodeKind where
  | LocalFn (def_id : Nat) (hir_id : Nat)
  | NonLocalFn (def_id : Nat)
deriving Repr, DecidableEq

/-- `Node` from `graph.rs`. -/
structure Node where
  id : Nat
  label : String
  kind : NodeKind
  panics : Bool
deriving Repr, DecidableEq

/-- `Edge` from `graph.rs`.  The Rust fields `from` and `to` are Lean
keywords and are rendered `from_` and `to_`. -/
structure Edge where
  from_ : Nat
  to_ : Nat
  call_id : Nat
  ty : Option String
deriving Repr, DecidableEq

/-- `Graph` from `graph.rs`. -/
structure Graph where
  nodes : List Node
  edges : List Edge
  crate_name : String
deriving Repr

/-- `impl PartialEq for NodeKind` in `graph.rs`: `LocalFn` vs `LocalFn`
compares both handles, `NonLocalFn` vs `NonLocalFn` compares the `DefId`,
mixed variants are unequal. -/
def NodeKind.beq : NodeKind → NodeKind → Bool
  | NodeKind.LocalFn d1 h1, NodeKind.LocalFn d2 h2 => d1 == d2 && h1 == h2
  | NodeKind.NonLocalFn d1, NodeKind.NonLocalFn d2 => d1 == d2
  | _, _ => false

/-- `impl PartialEq for Node` in `graph.rs`: equality on `(id, kind)` only;
`label` and `panics` are ignored. -/
def Node.beq (a b : Node) : Bool :=
  a.id == b.id && NodeKind.beq a.kind b.kind

/-- `impl PartialEq for Edge` in `graph.rs`: equality on `(to, from)` only. -/
def Edge.beq (a b : Edge) : Bool :=
  a.to_ == b.to_ && a.from_ == b.from_

/-- `Node::new` in `graph.rs`: fresh node with `panics = false`. -/
def Node.new (node_id : Nat) (label : String) (node_type : NodeKind) : Node :=
  { id := node_id, label := label, kind := node_type, panics := false }

/-- `NodeKind::local_fn` in `graph.rs`. -/
def NodeKind.local_fn (def_id : Nat) (hir_id : Nat) : NodeKind :=
  NodeKind.LocalFn def_id hir_id

/-- `NodeKind::non_local_fn` in `graph.rs`. -/
def NodeKind.non_local_fn (id : Nat) : NodeKind :=
  NodeKind.NonLocalFn id

/-- `NodeKind::def_id` in `graph.rs`: extract the stored `DefId` from either
variant. -/
def NodeKind.def_id : NodeKind → Nat
  | NodeKind.LocalFn d _ => d
  | NodeKind.NonLocalFn d => d

/-- `Edge::new` in `graph.rs`: constructs an edge with `ty = None`. -/
def Edge.new (from_ : Nat) (to_ : Nat) (call_id : Nat) : Edge :=
  { from_ := from_, to_ := to_, call_id := call_id, ty := none }

/-- `Graph::new` in `graph.rs`. -/
def Graph.new (crate_name : String) : Graph :=
  { nodes := [], edges := [], crate_name := crate_name }

/-- `Graph::add_node` in `graph.rs`: appends `Node::new(self.nodes.len(), …)`
and returns its id. -/
def Graph.add_node (g : Graph) (label : String) (node_kind : NodeKind) : Graph × Nat :=
  let node := Node.new g.nodes.length label node_kind
  let id := node.id
  ({ g with nodes := g.nodes ++ [node] }, id)

/-- `Graph::add_edge` in `graph.rs`: unconditional push. -/
def Graph.add_edge (g : Graph) (e : Edge) : Graph :=
  { g with edges := g.edges ++ [e] }

/-- The match performed inside `Graph::find_local_fn_node`'s loop body:
the node is of `LocalFn` kind and its `HirId` equals the argument. -/
def localMatch (n : Node) (id : Nat) : Bool :=
  match n.kind with
  | NodeKind.LocalFn _ hir_id => hir_id == id
  | _ => false

/-- The match performed inside `Graph::find_non_local_fn_node`'s loop body. -/
def nonLocalMatch (n : Node) (id : Nat) : Bool :=
  match n.kind with
  | NodeKind.NonLocalFn def_id => def_id == id
  | _ => false

/-- The loop of `Graph::find_local_fn_node`: first node (insertion order)
whose kind is `LocalFn` with matching `HirId`. -/
def findLocalAux (l : List Node) (id : Nat) : Option Node :=
  match l with
  | [] => none
  | n :: rest =>
    match n.kind with
    | NodeKind.LocalFn _ hir_id => if hir_id == id then some n else findLocalAux rest id
    | _ => findLocalAux rest id

/-- `Graph::find_local_fn_node` in `graph.rs`. -/
def Graph.find_local_fn_node (g : Graph) (id : Nat) : Option Node :=
  findLocalAux g.nodes id

/-- The loop of `Graph::find_non_local_fn_node`. -/
def findNonLocalAux (l : List Node) (id : Nat) : Option Node :=
  match l with
  | [] => none
  | n :: rest =>
    match n.kind with
    | NodeKind.NonLocalFn def_id => if def_id == id then some n else findNonLocalAux rest id
    | _ => findNonLocalAux rest id

/-- `Graph::find_non_local_fn_node` in `graph.rs`. -/
def Graph.find_non_local_fn_node (g : Graph) (id : Nat) : Option Node :=
  findNonLocalAux g.nodes id

/-- Rust slice indexing `v[i]`: yields the element when in bounds and
otherwise panics with the standard index-out-of-bounds message. -/
def getPanic {α : Type} (l : List α) (i : Nat) : Except String α :=
  match l.get? i with
  | some a => Except.ok a
  | none =>
    Except.error ("index out of bounds: the len is " ++ toString l.length
      ++ " but the index is " ++ toString i)

/-- `Vec::contains` on `Vec<Node>`: any element `== n` under the custom
`PartialEq for Node`. -/
def nodesContains (l : List Node) (n : Node) : Bool :=
  l.any (fun m => Node.beq m n)

/-- One conditional push from the loop body of `GraphWalk::nodes`:
append `n` unless a structurally equal node is present. -/
def pushIfNew (acc : List Node) (n : Node) : List Node :=
  if nodesContains acc n then acc else acc ++ [n]

/-- The loop of `GraphWalk::nodes` in `graph.rs`: walk the edge list in
order, appending `self.nodes[edge.from]` then `self.nodes[edge.to]` when not
already present; indexing may panic. -/
def walkNodesAux (nodes : List Node) : List Edge → List Node → Except String (List Node)
  | [], acc => Except.ok acc
  | e :: rest, acc =>
    match getPanic nodes e.from_ with
    | Except.error m => Except.error m
    | Except.ok nf =>
      match getPanic nodes e.to_ with
      | Except.error m => Except.error m
      | Except.ok nt => walkNodesAux nodes rest (pushIfNew (pushIfNew acc nf) nt)

/-- `GraphWalk::nodes` in `graph.rs`: the renderer's node set. -/
def Graph.walkNodes (g : Graph) : Except String (List Node) :=
  walkNodesAux g.nodes g.edges []

/-- `GraphWalk::edges` in `graph.rs`: the full edge list, cloned. -/
def Graph.walkEdges (g : Graph) : List Edge :=
  g.edges

/-- `GraphWalk::source` in `graph.rs`: `self.nodes[edge.from]`, a direct
index. -/
def Graph.source (g : Graph) (e : Edge) : Except String Node :=
  getPanic g.nodes e.from_

/-- `GraphWalk::target` in `graph.rs`: `self.nodes[edge.to]`, a direct
index. -/
def Graph.target (g : Graph) (e : Edge) : Except String Node :=
  getPanic g.nodes e.to_

/-- `String::retain(|e| e.is_ascii_alphanumeric())` as used by
`Labeller::graph_id`: keep exactly the ASCII-alphanumeric characters, in
order. -/
def sanitize (s : String) : String :=
  ⟨s.data.filter Char.isAlphanum⟩

/-- Models `dot::Id::new` from the `dot` crate (external dependency of
`graph.rs`): succeeds iff the first character is an ASCII letter or an
underscore and every later character is ASCII alphanumeric or an
underscore. -/
def dotIdNew (s : String) : Option String :=
  match s.data with
  | [] => none
  | c :: rest =>
    if (c.isAlpha || c == '_') && rest.all (fun d => d.isAlphanum || d == '_')
    then some s else none

/-- `Labeller::graph_id` in `graph.rs` up to the final `unwrap`: sanitize the
crate name, prefix the fixed literal, hand to `dot::Id::new`.  The `unwrap`
corresponds to the claim that this is never `none`. -/
def Graph.graph_id (g : Graph) : Option String :=
  dotIdNew ("error_propagation_" ++ sanitize g.crate_name)

/-- `Labeller::node_id` in `graph.rs` up to `dot::Id::new`: the token
`n<id>`. -/
def Graph.node_id (_g : Graph) (n : Node) : String :=
  "n" ++ toString n.id

/-- `Labeller::node_label` in `graph.rs`. -/
def Graph.node_label (_g : Graph) (n : Node) : String :=
  n.label

/-- `Labeller::edge_label` in `graph.rs`: `ty` if set, else `"unknown"`. -/
def Graph.edge_label (_g : Graph) (e : Edge) : String :=
  match e.ty with
  | some t => t
  | none => "unknown"

/-- Modelled from the spec: `get_node(id)` is described in §4.1 of the spec
but absent from `src/graph.rs`; per the spec it "returns a copy of the node
at `id` if `id` is within bounds, else signals not found (no fatal
failure)". -/
def Graph.get_node (g : Graph) (id : Nat) : Option Node :=
  g.nodes.get? id

/-- Whether the edge stored at slot `i` of `l` ends at the node id `nid`. -/
def edgeToMatches (l : List Edge) (nid : Nat) (i : Nat) : Bool :=
  match l.get? i with
  | some e => e.to_ == nid
  | none => false

/-- Modelled from the spec: `incoming_edges(node)` is described in §4.3 of
the spec but absent from `src/graph.rs`; per the spec it returns the
sequence of mutable references to the edges with `edge.to == node.id`, in
insertion order.  A mutable reference into the graph's edge list is modelled
as an index into it. -/
def Graph.incoming_edges (g : Graph) (n : Node) : List Nat :=
  (List.range g.edges.length).filter (fun i => edgeToMatches g.edges n.id i)

/-- Modelled from the spec: writing `edge.ty` through a mutable reference
(§3 lifecycle: edges "are only ever mutated afterward … to fill in an edge's
`ty`").  The reference is the index `i`; out-of-range writes leave the graph
unchanged (the model never produces such an index). -/
def Graph.setEdgeTy (g : Graph) (i : Nat) (t : String) : Graph :=
  match g.edges.get? i with
  | some e => { g with edges := g.edges.set i { e with ty := some t } }
  | none => g

/-- A sequence of `add_node` calls, returning the final graph and the ids
returned by each call in order. -/
def addNodes (g : Graph) : List (String × NodeKind) → Graph × List Nat
  | [] => (g, [])
  | (l, k) :: rest =>
    let p := g.add_node l k
    let q := addNodes p.1 rest
    (q.1, p.2 :: q.2)

/-- Example graph: local functions `A`, `B`, `C` registered, but only the
edge `A -> B` recorded; `C` is isolated. -/
def exampleIso : Graph :=
  { nodes := [Node.new 0 "A" (NodeKind.LocalFn 10 0), Node.new 1 "B" (NodeKind.LocalFn 11 1),
              Node.new 2 "C" (NodeKind.LocalFn 12 2)],
    edges := [Edge.new 0 1 100],
    crate_name := "example" }

/-- Example graph: nodes `A`, `B`, `C`, `D` with edges `A->B`, `C->B`,
`B->D`. -/
def exampleIncoming : Graph :=
  { nodes := [Node.new 0 "A" (NodeKind.LocalFn 10 0), Node.new 1 "B" (NodeKind.LocalFn 11 1),
              Node.new 2 "C" (NodeKind.LocalFn 12 2), Node.new 3 "D" (NodeKind.LocalFn 13 3)],
    edges := [Edge.new 0 1 100, Edge.new 2 1 101, Edge.new 1 3 102],
    crate_name := "example" }

/-- Example graph whose single edge references node index 0 while the node
registry is empty: a dangling edge. -/
def exampleDangling : Graph :=
  { nodes := [], edges := [Edge.new 0 0 0], crate_name := "c" }

/-- Example graph holding two nodes whose `LocalFn` kind carries the same
`HirId` 5, plus an external node with `DefId` 9 appearing twice. -/
def exampleDup : Graph :=
  { nodes := [Node.new 0 "f" (NodeKind.LocalFn 20 5), Node.new 1 "g" (NodeKind.NonLocalFn 9),
              Node.new 2 "f2" (NodeKind.LocalFn 21 5), Node.new 3 "g2" (NodeKind.NonLocalFn 9)],
    edges := [],
    crate_name := "example" }

/-! ### Helper lemmas on the equality predicates -/

theorem nodeKindBeq_iff (a b : NodeKind) : NodeKind.beq a b = true ↔ a = b := by
  cases a <;> cases b <;> simp [NodeKind.beq]

theorem nodeBeq_iff (a b : Node) : Node.beq a b = true ↔ a.id = b.id ∧ a.kind = b.kind := by
  simp [Node.beq, nodeKindBeq_iff]

theorem nodeBeq_refl (a : Node) : Node.beq a a = true := by
  simp [nodeBeq_iff]

theorem nodeBeq_symm (a b : Node) (h : Node.beq a b = true) : Node.beq b a = true := by
  rw [nodeBeq_iff] at h ⊢
  exact ⟨h.1.symm, h.2.symm⟩

theorem nodeBeq_trans (a b c : Node) (h1 : Node.beq a b = true)
    (h2 : Node.beq b c = true) : Node.beq a c = true := by
  rw [nodeBeq_iff] at h1 h2 ⊢
  exact ⟨h1.1.trans h2.1, h1.2.trans h2.2⟩

theorem edgeBeq_refl (e : Edge) : Edge.beq e e = true := by
  simp [Edge.beq]

/-! ### Theorems for the claims -/

/-- C6: Node equality is determined solely by the pair `(id, kind)`: nodes
with equal id and kind compare equal regardless of `label` and `panics`;
nodes differing in id or kind compare unequal; `LocalFn` and `NonLocalFn`
kinds are never equal to each other. -/
theorem C6_node_equality :
    (∀ a b : Node, Node.beq a b = true ↔ (a.id = b.id ∧ a.kind = b.kind)) ∧
    (∀ d h d', NodeKind.beq (NodeKind.LocalFn d h) (NodeKind.NonLocalFn d') = false) ∧
    (∀ d h d', NodeKind.beq (NodeKind.NonLocalFn d') (NodeKind.LocalFn d h) = false) := by
  refine ⟨nodeBeq_iff, ?_, ?_⟩ <;> intro d h d' <;> rfl

/-- Witness for C6: two nodes sharing `(id, kind)` but differing in label and
`panics` compare equal. -/
theorem C6_node_equality_witness :
    Node.beq { id := 0, label := "a", kind := NodeKind.LocalFn 1 2, panics := false }
      { id := 0, label := "b", kind := NodeKind.LocalFn 1 2, panics := true } = true :=
  (C6_node_equality.1 _ _).mpr ⟨rfl, rfl⟩

/-- C10: `LocalFn` stores the process-wide stable handle (`DefId`) alongside
the in-unit handle (`HirId`), and `def_id` is total over both variants,
returning the stored stable handle. -/
theorem C10_def_id_total :
    (∀ d h, NodeKind.local_fn d h = NodeKind.LocalFn d h) ∧
    (∀ d h, (NodeKind.LocalFn d h).def_id = d) ∧
    (∀ d, (NodeKind.NonLocalFn d).def_id = d) :=
  ⟨fun _ _ => rfl, fun _ _ => rfl, fun _ => rfl⟩

/-- C8: `add_edge` appends unconditionally: the edge list becomes the old
list with `e` at the end, nodes and crate name are untouched, and a
duplicate `(from, to)` pair is not rejected — the count of edges equal to
`e` (under edge equality on `(from, to)`) strictly increases. -/
theorem C8_add_edge_appends :
    ∀ (g : Graph) (e : Edge),
      (g.add_edge e).edges = g.edges ++ [e] ∧
      (g.add_edge e).nodes = g.nodes ∧
      (g.add_edge e).crate_name = g.crate_name ∧
      List.countP (fun x => Edge.beq x e) (g.add_edge e).edges
        = List.countP (fun x => Edge.beq x e) g.edges + 1 := by
  intro g e
  refine ⟨rfl, rfl, rfl, ?_⟩
  simp [Graph.add_edge, List.countP_append, List.countP_cons, edgeBeq_refl]

/-- C3: `get_node i` succeeds exactly when `i` is within bounds of the node
registry, and on success returns the node stored at position `i`. -/
theorem C3_get_node :
    ∀ (g : Graph) (i : Nat),
      ((g.get_node i).isSome = true ↔ i < g.nodes.length) ∧
      (∀ n, g.get_node i = some n → g.nodes.get? i = some n) := by
  intro g i
  refine ⟨?_, fun n h => h⟩
  rw [Graph.get_node, List.get?_eq_getElem?, Option.isSome_iff_exists]
  constructor
  · rintro ⟨a, ha⟩
    exact (List.getElem?_eq_some.mp ha).1
  · intro h
    exact ⟨g.nodes[i], List.getElem?_eq_some.mpr ⟨h, rfl⟩⟩

/-- Witness for C3: a one-node graph answers in bounds at index 0 and the
stored node is returned. -/
theorem C3_get_node_witness :
    (Graph.mk [Node.new 0 "f" (NodeKind.NonLocalFn 7)] [] "c").get_node 0
      = some (Node.new 0 "f" (NodeKind.NonLocalFn 7)) ∧
    ((Graph.mk [Node.new 0 "f" (NodeKind.NonLocalFn 7)] [] "c").get_node 1).isSome = false := by
  have h := C3_get_node (Graph.mk [Node.new 0 "f" (NodeKind.NonLocalFn 7)] [] "c") 1
  refine ⟨rfl, ?_⟩
  have h2 : ¬ (1 : Nat) < 1 := by decide
  cases hs : ((Graph.mk [Node.new 0 "f" (NodeKind.NonLocalFn 7)] [] "c").get_node 1).isSome
  · rfl
  · exact absurd (h.1.mp hs) (by simp)

/-! ### Sequential id assignment (C5) -/

theorem addNodes_ids (calls : List (String × NodeKind)) :
    ∀ g : Graph, (addNodes g calls).2 = List.range' g.nodes.length calls.length := by
  induction calls with
  | nil => intro g; rfl
  | cons c rest ih =>
    intro g
    obtain ⟨l, k⟩ := c
    have hlen : ((g.add_node l k).1).nodes.length = g.nodes.length + 1 := by
      simp [Graph.add_node]
    have h := ih (g.add_node l k).1
    rw [hlen] at h
    show ((g.add_node l k).2 :: (addNodes (g.add_node l k).1 rest).2)
      = List.range' g.nodes.length (rest.length + 1)
    rw [List.range'_succ, h]
    rfl

theorem addNodes_map_id (calls : List (String × NodeKind)) :
    ∀ g : Graph, g.nodes.map Node.id = List.range g.nodes.length →
      (addNodes g calls).1.nodes.map Node.id
        = List.range (addNodes g calls).1.nodes.length := by
  induction calls with
  | nil => intro g h; exact h
  | cons c rest ih =>
    intro g h
    obtain ⟨l, k⟩ := c
    apply ih
    show (g.nodes ++ [Node.new g.nodes.length l k]).map Node.id
      = List.range (g.nodes ++ [Node.new g.nodes.length l k]).length
    rw [List.map_append, h, List.length_append]
    show List.range g.nodes.length ++ [g.nodes.length]
      = List.range (g.nodes.length + 1)
    rw [List.range_succ]

/-- C5: every `add_node` call returns the registry length before the call
and appends a fresh node with `panics = false`; starting from an empty
graph, the k-th call of any call sequence returns id `k-1` (the returned id
list is `range`), and every node's id equals its position in the
registry. -/
theorem C5_add_node_ids :
    (∀ (g : Graph) (l : String) (k : NodeKind),
      (g.add_node l k).2 = g.nodes.length ∧
      (g.add_node l k).1.nodes = g.nodes ++ [Node.new g.nodes.length l k] ∧
      Node.new g.nodes.length l k
        = { id := g.nodes.length, label := l, kind := k, panics := false } ∧
      (g.add_node l k).1.edges = g.edges) ∧
    (∀ (name : String) (calls : List (String × NodeKind)),
      (addNodes (Graph.new name) calls).2 = List.range calls.length ∧
      (addNodes (Graph.new name) calls).1.nodes.map Node.id
        = List.range (addNodes (Graph.new name) calls).1.nodes.length) := by
  constructor
  · intro g l k
    exact ⟨rfl, rfl, rfl, rfl⟩
  · intro name calls
    constructor
    · rw [addNodes_ids calls (Graph.new name), List.range_eq_range']
      rfl
    · exact addNodes_map_id calls (Graph.new name) rfl

/-! ### Graph identifier sanitization (C9) -/

theorem dotIdNew_sound (t : String)
    (h : t.data.all (fun d => d.isAlphanum || d == '_') = true) :
    dotIdNew ("error_propagation_" ++ t) = some ("error_propagation_" ++ t) := by
  have hdata : ("error_propagation_" ++ t).data
      = "error_propagation_".data ++ t.data := String.data_append _ _
  rw [dotIdNew, hdata]
  have hpre : "error_propagation_".data
      = ['e', 'r', 'r', 'o', 'r', '_', 'p', 'r', 'o', 'p', 'a', 'g', 'a',
         't', 'i', 'o', 'n', '_'] := rfl
  rw [hpre]
  simp only [List.cons_append, List.nil_append]
  rw [if_pos]
  rw [Bool.and_eq_true]
  constructor
  · decide
  · show ((['r', 'r', 'o', 'r', '_', 'p', 'r', 'o', 'p', 'a', 'g', 'a', 't',
        'i', 'o', 'n', '_'] : List Char) ++ t.data).all
        (fun d => d.isAlphanum || d == '_') = true
    rw [List.all_append, Bool.and_eq_true]
    exact ⟨by decide, h⟩

theorem sanitize_all_alphanum (s : String) :
    (sanitize s).data.all (fun d => d.isAlphanum || d == '_') = true := by
  rw [List.all_eq_true]
  intro d hd
  have : Char.isAlphanum d = true := List.of_mem_filter hd
  rw [this]
  rfl

/-- C9: the graph identifier never fails to construct: it is always `some`
of the fixed literal prefix `error_propagation_` followed by exactly the
alphanumeric characters of the crate name in order (non-alphanumerics are
dropped), and an empty crate name yields the fixed literal identifier. -/
theorem C9_graph_id_total :
    ∀ g : Graph,
      g.graph_id = some ("error_propagation_" ++ sanitize g.crate_name) ∧
      (sanitize g.crate_name).data = g.crate_name.data.filter Char.isAlphanum ∧
      (g.crate_name = "" → g.graph_id = some "error_propagation_") := by
  intro g
  have h1 : g.graph_id = some ("error_propagation_" ++ sanitize g.crate_name) :=
    dotIdNew_sound (sanitize g.crate_name) (sanitize_all_alphanum g.crate_name)
  refine ⟨h1, rfl, ?_⟩
  intro he
  rw [h1, he]
  rfl

/-- Witness for C9: a crate name full of non-alphanumeric characters is
sanitized, never rejected, and the empty crate name yields the fixed
literal. -/
theorem C9_graph_id_total_witness :
    (Graph.new "my-crate!").graph_id = some "error_propagation_mycrate" ∧
    (Graph.new "").graph_id = some "error_propagation_" := by
  constructor
  · have h := (C9_graph_id_total (Graph.new "my-crate!")).1
    rw [h]
    rfl
  · exact (C9_graph_id_total (Graph.new "")).2.2 rfl

/-! ### First-match lookups (C7) -/

theorem find_first_index {α : Type} (p : α → Bool) (l : List α) (a : α)
    (h : l.find? p = some a) :
    ∃ i, l.get? i = some a ∧ ∀ j, j < i → ∀ m, l.get? j = some m → p m = false := by
  induction l with
  | nil => simp at h
  | cons hd tl ih =>
    rw [List.find?_cons] at h
    cases hp : p hd with
    | true =>
      rw [hp] at h
      refine ⟨0, by simpa using h, ?_⟩
      intro j hj m hm
      omega
    | false =>
      rw [hp] at h
      obtain ⟨i, hi, hfirst⟩ := ih h
      refine ⟨i + 1, hi, ?_⟩
      intro j hj m hm
      cases j with
      | zero =>
        simp only [List.get?_cons_zero] at hm
        cases hm
        exact hp
      | succ j' =>
        exact hfirst j' (by omega) m hm

theorem findLocalAux_eq_find (l : List Node) (id : Nat) :
    findLocalAux l id = l.find? (fun n => localMatch n id) := by
  induction l with
  | nil => rfl
  | cons hd tl ih =>
    rw [List.find?_cons]
    show (match hd.kind with
      | NodeKind.LocalFn _ hir_id => if hir_id == id then some hd else findLocalAux tl id
      | _ => findLocalAux tl id) = _
    cases hk : hd.kind with
    | LocalFn d hh =>
      have hlm : localMatch hd id = (hh == id) := by
        unfold localMatch
        rw [hk]
      rw [hlm]
      cases hb : (hh == id) <;> simp [hb, ih]
    | NonLocalFn d =>
      have hlm : localMatch hd id = false := by
        unfold localMatch
        rw [hk]
      rw [hlm]
      simp [ih]

theorem findNonLocalAux_eq_find (l : List Node) (id : Nat) :
    findNonLocalAux l id = l.find? (fun n => nonLocalMatch n id) := by
  induction l with
  | nil => rfl
  | cons hd tl ih =>
    rw [List.find?_cons]
    show (match hd.kind with
      | NodeKind.NonLocalFn def_id => if def_id == id then some hd else findNonLocalAux tl id
      | _ => findNonLocalAux tl id) = _
    cases hk : hd.kind with
    | LocalFn d hh =>
      have hlm : nonLocalMatch hd id = false := by
        unfold nonLocalMatch
        rw [hk]
      rw [hlm]
      simp [ih]
    | NonLocalFn d =>
      have hlm : nonLocalMatch hd id = (d == id) := by
        unfold nonLocalMatch
        rw [hk]
      rw [hlm]
      cases hb : (d == id) <;> simp [hb, ih]

/-- C7: `find_local_fn_node h` returns the first node in insertion order of
`LocalFn` kind whose in-unit handle (`HirId`) equals `h` — a returned node
matches, sits at a position before which nothing matches — returns none iff
no node matches, and appending further nodes (in particular a duplicate of
the match) does not change an existing result; the same holds symmetrically
for `find_non_local_fn_node` over `NonLocalFn` nodes and the stable handle
(`DefId`). -/
theorem C7_find_first_match :
    ∀ (g : Graph) (h : Nat),
      (∀ n, g.find_local_fn_node h = some n →
        localMatch n h = true ∧
        ∃ i, g.nodes.get? i = some n ∧
          ∀ j, j < i → ∀ m, g.nodes.get? j = some m → localMatch m h = false) ∧
      (g.find_local_fn_node h = none ↔ ∀ n ∈ g.nodes, localMatch n h = false) ∧
      (∀ n extra, g.find_local_fn_node h = some n →
        (Graph.mk (g.nodes ++ extra) g.edges g.crate_name).find_local_fn_node h
          = some n) ∧
      (∀ n, g.find_non_local_fn_node h = some n →
        nonLocalMatch n h = true ∧
        ∃ i, g.nodes.get? i = some n ∧
          ∀ j, j < i → ∀ m, g.nodes.get? j = some m → nonLocalMatch m h = false) ∧
      (g.find_non_local_fn_node h = none ↔ ∀ n ∈ g.nodes, nonLocalMatch n h = false) ∧
      (∀ n extra, g.find_non_local_fn_node h = some n →
        (Graph.mk (g.nodes ++ extra) g.edges g.crate_name).find_non_local_fn_node h
          = some n) := by
  intro g h
  refine ⟨?_, ?_, ?_, ?_, ?_, ?_⟩
  · intro n hn
    rw [Graph.find_local_fn_node, findLocalAux_eq_find] at hn
    exact ⟨@List.find?_some _ (fun n => localMatch n h) n g.nodes hn,
      find_first_index _ _ _ hn⟩
  · rw [Graph.find_local_fn_node, findLocalAux_eq_find, List.find?_eq_none]
    simp
  · intro n extra hn
    rw [Graph.find_local_fn_node, findLocalAux_eq_find] at hn
    show findLocalAux (g.nodes ++ extra) h = some n
    rw [findLocalAux_eq_find, List.find?_append, hn]
    rfl
  · intro n hn
    rw [Graph.find_non_local_fn_node, findNonLocalAux_eq_find] at hn
    exact ⟨@List.find?_some _ (fun n => nonLocalMatch n h) n g.nodes hn,
      find_first_index _ _ _ hn⟩
  · rw [Graph.find_non_local_fn_node, findNonLocalAux_eq_find, List.find?_eq_none]
    simp
  · intro n extra hn
    rw [Graph.find_non_local_fn_node, findNonLocalAux_eq_find] at hn
    show findNonLocalAux (g.nodes ++ extra) h = some n
    rw [findNonLocalAux_eq_find, List.find?_append, hn]
    rfl

/-- Witness for C7: in `exampleDup`, lookup by `HirId` 5 returns the
first-inserted matching node even after appending one more node carrying the
same `HirId`; lookup by `DefId` 9 returns the first of the two matching
external nodes. -/
theorem C7_find_first_match_witness :
    (Graph.mk (exampleDup.nodes ++ [Node.new 4 "f3" (NodeKind.LocalFn 22 5)])
        exampleDup.edges exampleDup.crate_name).find_local_fn_node 5
      = some (Node.new 0 "f" (NodeKind.LocalFn 20 5)) ∧
    exampleDup.find_non_local_fn_node 9 = some (Node.new 1 "g" (NodeKind.NonLocalFn 9)) :=
  ⟨(C7_find_first_match exampleDup 5).2.2.1 _ _ rfl, rfl⟩

/-! ### Incoming-edge query and its observability (C2) -/

theorem range_filter_filterMap (l : List Edge) (nid : Nat) :
    ((List.range l.length).filter (fun i => edgeToMatches l nid i)).filterMap
      (fun i => l.get? i) = l.filter (fun e => e.to_ == nid) := by
  induction l with
  | nil => rfl
  | cons a tl ih =>
    rw [List.length_cons, List.range_succ_eq_map]
    rw [List.filter_cons]
    have h0 : edgeToMatches (a :: tl) nid 0 = (a.to_ == nid) := rfl
    rw [h0]
    have hmap : ((List.range tl.length).map Nat.succ).filter
          (fun i => edgeToMatches (a :: tl) nid i)
        = ((List.range tl.length).filter
            (fun i => edgeToMatches tl nid i)).map Nat.succ := by
      rw [List.filter_map]
      rfl
    have hcomp : ((fun i => (a :: tl).get? i) ∘ Nat.succ)
        = fun i => tl.get? i := rfl
    by_cases hp : (a.to_ == nid) = true
    · rw [if_pos hp, List.filterMap_cons]
      have hg : (a :: tl).get? 0 = some a := rfl
      rw [hg, hmap, List.filterMap_map, hcomp, ih, List.filter_cons, hp]
      simp
    · rw [if_neg hp, hmap, List.filterMap_map, hcomp, ih, List.filter_cons]
      rw [Bool.not_eq_true] at hp
      rw [hp]
      simp

/-- C2: `incoming_edges B` designates exactly the edges whose `to` field
equals `B`'s id, in edge-list insertion order, and writing `ty` through one
of the returned references is visible to the renderer: the edge list walked
by the render (`walkEdges`) holds the updated edge at that slot, its
rendered `edge_label` is the new type, and the node registry is
untouched. -/
theorem C2_incoming_edges :
    ∀ (g : Graph) (n : Node),
      ((g.incoming_edges n).filterMap (fun i => g.edges.get? i)
          = g.edges.filter (fun e => e.to_ == n.id)) ∧
      (∀ i, i ∈ g.incoming_edges n → ∀ t,
        ∃ e, g.edges.get? i = some e ∧ e.to_ = n.id ∧
          (g.setEdgeTy i t).walkEdges.get? i = some { e with ty := some t } ∧
          Graph.edge_label (g.setEdgeTy i t) { e with ty := some t } = t ∧
          (g.setEdgeTy i t).nodes = g.nodes) := by
  intro g n
  constructor
  · rw [Graph.incoming_edges]
    exact range_filter_filterMap g.edges n.id
  · intro i hi t
    obtain ⟨hrange, hpred⟩ := List.mem_filter.mp hi
    rw [edgeToMatches] at hpred
    cases hg : g.edges.get? i with
    | none =>
      rw [hg] at hpred
      simp at hpred
    | some e =>
      rw [hg] at hpred
      have hpred2 : (e.to_ == n.id) = true := hpred
      have hto : e.to_ = n.id := by simpa using hpred2
      refine ⟨e, rfl, hto, ?_, rfl, ?_⟩
      · show ((g.setEdgeTy i t).edges).get? i = some { e with ty := some t }
        rw [Graph.setEdgeTy, hg, List.get?_eq_getElem?]
        exact List.getElem?_set_eq_of_lt _ (List.mem_range.mp hrange)
      · rw [Graph.setEdgeTy, hg]

/-- Witness for C2: in `exampleIncoming` (edges `A->B`, `C->B`, `B->D`),
reference 0 of `incoming_edges B` points at the edge `A->B`, whose `to`
field is `B`'s id, and setting its `ty` to `"MyError"` is visible at slot 0
of the walked edge list with rendered label `"MyError"`. -/
theorem C2_incoming_edges_witness :
    (0 ∈ exampleIncoming.incoming_edges (Node.new 1 "B" (NodeKind.LocalFn 11 1))) ∧
    ∃ e, exampleIncoming.edges.get? 0 = some e ∧
      e.to_ = (Node.new 1 "B" (NodeKind.LocalFn 11 1)).id ∧
      (exampleIncoming.setEdgeTy 0 "MyError").walkEdges.get? 0
        = some { e with ty := some "MyError" } ∧
      Graph.edge_label (exampleIncoming.setEdgeTy 0 "MyError")
        { e with ty := some "MyError" } = "MyError" ∧
      (exampleIncoming.setEdgeTy 0 "MyError").nodes = exampleIncoming.nodes :=
  ⟨by decide,
    (C2_incoming_edges exampleIncoming (Node.new 1 "B" (NodeKind.LocalFn 11 1))).2
      0 (by decide) "MyError"⟩

/-! ### Edge-endpoint resolution during rendering (C4) -/

/-- Counterexample for C4: on a graph whose only edge references node index
0 while no node is registered, endpoint resolution and the renderer's node
walk fail with Rust's generic index-out-of-bounds panic message, which is
not the descriptive message the claim states. -/
theorem C4_counterexample :
    exampleDangling.walkNodes
        = Except.error "index out of bounds: the len is 0 but the index is 0" ∧
    Graph.source exampleDangling (Edge.new 0 0 0)
        = Except.error "index out of bounds: the len is 0 but the index is 0" ∧
    Graph.target exampleDangling (Edge.new 0 0 0)
        = Except.error "index out of bounds: the len is 0 but the index is 0" ∧
    "index out of bounds: the len is 0 but the index is 0"
        ≠ "node at edge's start does not exist" ∧
    "index out of bounds: the len is 0 but the index is 0"
        ≠ "node at edge's end does not exist" := by
  refine ⟨rfl, rfl, rfl, by decide, by decide⟩

/-- C4 (amended): resolving an edge's endpoint node during rendering indexes
the node registry directly: an edge whose `from` or `to` index refers to no
registered node makes `source`/`target` fail fatally with Rust's generic
index-out-of-bounds panic message (no descriptive message), and an in-bounds
index resolves to the stored node. -/
theorem C4_endpoint_resolution :
    ∀ (g : Graph) (e : Edge),
      (g.nodes.length ≤ e.from_ →
        g.source e = Except.error ("index out of bounds: the len is "
          ++ toString g.nodes.length ++ " but the index is " ++ toString e.from_)) ∧
      (g.nodes.length ≤ e.to_ →
        g.target e = Except.error ("index out of bounds: the len is "
          ++ toString g.nodes.length ++ " but the index is " ++ toString e.to_)) ∧
      (e.from_ < g.nodes.length →
        ∃ nd, g.source e = Except.ok nd ∧ g.nodes.get? e.from_ = some nd) ∧
      (e.to_ < g.nodes.length →
        ∃ nd, g.target e = Except.ok nd ∧ g.nodes.get? e.to_ = some nd) := by
  intro g e
  refine ⟨?_, ?_, ?_, ?_⟩
  · intro h
    rw [Graph.source, getPanic, List.get?_eq_none.mpr h]
  · intro h
    rw [Graph.target, getPanic, List.get?_eq_none.mpr h]
  · intro h
    cases hg : g.nodes.get? e.from_ with
    | none =>
      rw [List.get?_eq_none] at hg
      omega
    | some nd =>
      refine ⟨nd, ?_, rfl⟩
      rw [Graph.source, getPanic, hg]
  · intro h
    cases hg : g.nodes.get? e.to_ with
    | none =>
      rw [List.get?_eq_none] at hg
      omega
    | some nd =>
      refine ⟨nd, ?_, rfl⟩
      rw [Graph.target, getPanic, hg]

/-- Witness for C4 (amended): applying the amended theorem to the dangling
graph produces the generic panic message. -/
theorem C4_endpoint_resolution_witness :
    exampleDangling.nodes.length ≤ (Edge.new 0 0 0).from_ ∧
    Graph.source exampleDangling (Edge.new 0 0 0)
      = Except.error ("index out of bounds: the len is "
        ++ toString exampleDangling.nodes.length ++ " but the index is "
        ++ toString (Edge.new 0 0 0).from_) :=
  ⟨by decide, (C4_endpoint_resolution exampleDangling (Edge.new 0 0 0)).1 (by decide)⟩

/-! ### The renderer's node walk (C1) -/

theorem getPanic_ok {α : Type} (l : List α) (i : Nat) (a : α)
    (h : getPanic l i = Except.ok a) : l.get? i = some a := by
  rw [getPanic] at h
  cases hg : l.get? i with
  | none =>
    rw [hg] at h
    cases h
  | some b =>
    rw [hg] at h
    cases h
    rfl

theorem getPanic_of_get? {α : Type} (l : List α) (i : Nat) (a : α)
    (h : l.get? i = some a) : getPanic l i = Except.ok a := by
  rw [getPanic, h]

theorem pushIfNew_mem (acc : List Node) (n m : Node) (h : m ∈ pushIfNew acc n) :
    m ∈ acc ∨ m = n := by
  rw [pushIfNew] at h
  split at h
  · exact Or.inl h
  · rcases List.mem_append.mp h with h1 | h2
    · exact Or.inl h1
    · exact Or.inr (List.mem_singleton.mp h2)

theorem pushIfNew_countP_mono (acc : List Node) (n : Node) (p : Node → Bool) :
    acc.countP p ≤ (pushIfNew acc n).countP p := by
  rw [pushIfNew]
  split
  · exact Nat.le_refl _
  · rw [List.countP_append]
    exact Nat.le_add_right _ _

theorem pushIfNew_count_self (acc : List Node) (n : Node) :
    1 ≤ (pushIfNew acc n).countP (fun m => Node.beq m n) := by
  rw [pushIfNew]
  split
  · rename_i hc
    rw [nodesContains, List.any_eq_true] at hc
    obtain ⟨a, ha, hbeq⟩ := hc
    have : 0 < acc.countP (fun m => Node.beq m n) :=
      List.countP_pos_iff.mpr ⟨a, ha, hbeq⟩
    omega
  · rw [List.countP_append, List.countP_cons, List.countP_nil, nodeBeq_refl]
    simp

theorem pushIfNew_dedup (acc : List Node) (n : Node)
    (hD : ∀ a, acc.countP (fun m => Node.beq m a) ≤ 1) :
    ∀ a, (pushIfNew acc n).countP (fun m => Node.beq m a) ≤ 1 := by
  intro a
  rw [pushIfNew]
  split
  · exact hD a
  · rename_i hc
    rw [List.countP_append, List.countP_cons, List.countP_nil]
    by_cases hb : Node.beq n a = true
    · have hzero : acc.countP (fun m => Node.beq m a) = 0 := by
        rw [List.countP_eq_zero]
        intro x hx hbeq
        have hxn : Node.beq x n = true :=
          nodeBeq_trans x a n hbeq (nodeBeq_symm n a hb)
        exact hc (by rw [nodesContains, List.any_eq_true]; exact ⟨x, hx, hxn⟩)
      rw [hzero, hb]
      simp
    · rw [Bool.not_eq_true] at hb
      rw [hb]
      have := hD a
      simp
      omega

theorem walkNodesAux_ok (nodes : List Node) (edges : List Edge)
    (hb : ∀ e ∈ edges, e.from_ < nodes.length ∧ e.to_ < nodes.length) :
    ∀ acc, ∃ l, walkNodesAux nodes edges acc = Except.ok l := by
  induction edges with
  | nil => exact fun acc => ⟨acc, rfl⟩
  | cons e rest ih =>
    intro acc
    have he := hb e (List.mem_cons_self e rest)
    obtain ⟨nf, hnf⟩ : ∃ nf, nodes.get? e.from_ = some nf :=
      ⟨nodes.get ⟨e.from_, he.1⟩, List.get?_eq_get he.1⟩
    obtain ⟨nt, hnt⟩ : ∃ nt, nodes.get? e.to_ = some nt :=
      ⟨nodes.get ⟨e.to_, he.2⟩, List.get?_eq_get he.2⟩
    have hge : getPanic nodes e.from_ = Except.ok nf := getPanic_of_get? _ _ _ hnf
    have hgt : getPanic nodes e.to_ = Except.ok nt := getPanic_of_get? _ _ _ hnt
    show ∃ l, (match getPanic nodes e.from_ with
      | Except.error m => Except.error m
      | Except.ok nf =>
        match getPanic nodes e.to_ with
        | Except.error m => Except.error m
        | Except.ok nt => walkNodesAux nodes rest (pushIfNew (pushIfNew acc nf) nt))
      = Except.ok l
    rw [hge, hgt]
    exact ih (fun e' he' => hb e' (List.mem_cons_of_mem _ he')) _

theorem walkNodesAux_mem (nodes : List Node) (edges : List Edge) :
    ∀ acc l, walkNodesAux nodes edges acc = Except.ok l →
      ∀ m ∈ l, m ∈ acc ∨ ∃ e, e ∈ edges ∧
        (nodes.get? e.from_ = some m ∨ nodes.get? e.to_ = some m) := by
  induction edges with
  | nil =>
    intro acc l h m hm
    injection h with h
    subst h
    exact Or.inl hm
  | cons e rest ih =>
    intro acc l h m hm
    rw [walkNodesAux] at h
    cases hge : getPanic nodes e.from_ with
    | error s =>
      rw [hge] at h
      cases h
    | ok nf =>
      rw [hge] at h
      cases hgt : getPanic nodes e.to_ with
      | error s =>
        rw [hgt] at h
        cases h
      | ok nt =>
        rw [hgt] at h
        rcases ih _ _ h m hm with hin | ⟨e', he', hor⟩
        · rcases pushIfNew_mem _ _ _ hin with hin2 | rfl
          · rcases pushIfNew_mem _ _ _ hin2 with hin3 | rfl
            · exact Or.inl hin3
            · exact Or.inr ⟨e, List.mem_cons_self e rest,
                Or.inl (getPanic_ok _ _ _ hge)⟩
          · exact Or.inr ⟨e, List.mem_cons_self e rest,
              Or.inr (getPanic_ok _ _ _ hgt)⟩
        · exact Or.inr ⟨e', List.mem_cons_of_mem _ he', hor⟩

theorem walkNodesAux_dedup (nodes : List Node) (edges : List Edge) :
    ∀ acc l, (∀ a, acc.countP (fun m => Node.beq m a) ≤ 1) →
      walkNodesAux nodes edges acc = Except.ok l →
      ∀ a, l.countP (fun m => Node.beq m a) ≤ 1 := by
  induction edges with
  | nil =>
    intro acc l hD h
    injection h with h
    subst h
    exact hD
  | cons e rest ih =>
    intro acc l hD h
    rw [walkNodesAux] at h
    cases hge : getPanic nodes e.from_ with
    | error s =>
      rw [hge] at h
      cases h
    | ok nf =>
      rw [hge] at h
      cases hgt : getPanic nodes e.to_ with
      | error s =>
        rw [hgt] at h
        cases h
      | ok nt =>
        rw [hgt] at h
        exact ih _ _ (pushIfNew_dedup _ _ (pushIfNew_dedup _ _ hD)) h

theorem walkNodesAux_countP_mono (nodes : List Node) (edges : List Edge) :
    ∀ acc l (p : Node → Bool), walkNodesAux nodes edges acc = Except.ok l →
      acc.countP p ≤ l.countP p := by
  induction edges with
  | nil =>
    intro acc l p h
    injection h with h
    subst h
    exact Nat.le_refl _
  | cons e rest ih =>
    intro acc l p h
    rw [walkNodesAux] at h
    cases hge : getPanic nodes e.from_ with
    | error s =>
      rw [hge] at h
      cases h
    | ok nf =>
      rw [hge] at h
      cases hgt : getPanic nodes e.to_ with
      | error s =>
        rw [hgt] at h
        cases h
      | ok nt =>
        rw [hgt] at h
        calc acc.countP p
            ≤ (pushIfNew acc nf).countP p := pushIfNew_countP_mono _ _ _
          _ ≤ (pushIfNew (pushIfNew acc nf) nt).countP p := pushIfNew_countP_mono _ _ _
          _ ≤ l.countP p := ih _ _ _ h

theorem walkNodesAux_endpoint (nodes : List Node) (edges : List Edge) :
    ∀ acc l, walkNodesAux nodes edges acc = Except.ok l →
      ∀ e ∈ edges, ∀ a,
        (nodes.get? e.from_ = some a ∨ nodes.get? e.to_ = some a) →
        1 ≤ l.countP (fun m => Node.beq m a) := by
  induction edges with
  | nil =>
    intro acc l h e he
    cases he
  | cons e0 rest ih =>
    intro acc l h e he a ha
    rw [walkNodesAux] at h
    cases hge : getPanic nodes e0.from_ with
    | error s =>
      rw [hge] at h
      cases h
    | ok nf =>
      rw [hge] at h
      cases hgt : getPanic nodes e0.to_ with
      | error s =>
        rw [hgt] at h
        cases h
      | ok nt =>
        rw [hgt] at h
        rcases List.mem_cons.mp he with rfl | hrest
        · rcases ha with haf | hat
          · have hanf : a = nf := by
              have := getPanic_ok _ _ _ hge
              rw [this] at haf
              injection haf with haf
              exact haf.symm
            subst hanf
            have h1 : 1 ≤ (pushIfNew acc a).countP (fun m => Node.beq m a) :=
              pushIfNew_count_self _ _
            have h2 : (pushIfNew acc a).countP (fun m => Node.beq m a)
                ≤ (pushIfNew (pushIfNew acc a) nt).countP (fun m => Node.beq m a) :=
              pushIfNew_countP_mono _ _ _
            have h3 := walkNodesAux_countP_mono nodes rest _ _
              (fun m => Node.beq m a) h
            omega
          · have hant : a = nt := by
              have := getPanic_ok _ _ _ hgt
              rw [this] at hat
              injection hat with hat
              exact hat.symm
            subst hant
            have h1 : 1 ≤ (pushIfNew (pushIfNew acc nf) a).countP
                (fun m => Node.beq m a) := pushIfNew_count_self _ _
            have h3 := walkNodesAux_countP_mono nodes rest _ _
              (fun m => Node.beq m a) h
            omega
        · exact ih _ _ h e hrest a ha

/-- C1: the renderer's node set (the `GraphWalk::nodes` walk) is built from
the edge list alone: when every edge endpoint is a registered node index, the
walk succeeds, every node in the output is an endpoint of some edge (so a
registered node incident to no edge never appears), and every edge endpoint
appears exactly once up to structural node equality on `(id, kind)`. -/
theorem C1_renderer_node_set :
    ∀ g : Graph,
      (∀ e ∈ g.edges, e.from_ < g.nodes.length ∧ e.to_ < g.nodes.length) →
      ∃ l, g.walkNodes = Except.ok l ∧
        (∀ m ∈ l, ∃ e, e ∈ g.edges ∧
          (g.nodes.get? e.from_ = some m ∨ g.nodes.get? e.to_ = some m)) ∧
        (∀ e ∈ g.edges, ∀ a,
          (g.nodes.get? e.from_ = some a ∨ g.nodes.get? e.to_ = some a) →
          l.countP (fun m => Node.beq m a) = 1) := by
  intro g hb
  obtain ⟨l, hl⟩ := walkNodesAux_ok g.nodes g.edges hb []
  refine ⟨l, hl, ?_, ?_⟩
  · intro m hm
    rcases walkNodesAux_mem g.nodes g.edges [] l hl m hm with hin | hex
    · cases hin
    · exact hex
  · intro e he a ha
    have h1 := walkNodesAux_endpoint g.nodes g.edges [] l hl e he a ha
    have h2 := walkNodesAux_dedup g.nodes g.edges [] l
      (fun a => by simp) hl a
    omega

/-- The walk on `exampleIso` concretely: only `A` and `B` are rendered, in
first-occurrence order; the isolated registered node `C` is absent. -/
theorem walkNodes_exampleIso :
    exampleIso.walkNodes = Except.ok
      [Node.new 0 "A" (NodeKind.LocalFn 10 0),
       Node.new 1 "B" (NodeKind.LocalFn 11 1)] := rfl

/-- Witness for C1: on `exampleIso` (nodes `A`, `B`, `C`, single edge
`A -> B`) the bounds hypothesis holds and the walked node set exists with
the claimed properties. -/
theorem C1_renderer_node_set_witness :
    (∀ e ∈ exampleIso.edges,
      e.from_ < exampleIso.nodes.length ∧ e.to_ < exampleIso.nodes.length) ∧
    ∃ l, exampleIso.walkNodes = Except.ok l ∧
      (∀ m ∈ l, ∃ e, e ∈ exampleIso.edges ∧
        (exampleIso.nodes.get? e.from_ = some m ∨
          exampleIso.nodes.get? e.to_ = some m)) ∧
      (∀ e ∈ exampleIso.edges, ∀ a,
        (exampleIso.nodes.get? e.from_ = some a ∨
          exampleIso.nodes.get? e.to_ = some a) →
        l.countP (fun m => Node.beq m a) = 1) :=
  ⟨by decide, C1_renderer_node_set exampleIso (by decide)⟩

end ErrorAnalyser
